import Mathlib

/-!
# Verification of hrosailing's missing-value interpolation subsystem

Shallow embedding of the core of `hrosailing`:

* `hrosailing/polardiagram/_incompletedatahandler.py`
  (`has_missing_values`, `interpolate_missing_values`),
* the textually duplicated private copies in
  `hrosailing/polardiagram/_reading.py`
  (`_has_missing_values`, `_interpolate_missing_values`) together with the
  post-parse core of `_read_extern_format`,
* `hrosailing/wind.py` (`set_resolution`).

Floating-point cell values are modelled as `V`: either the NaN sentinel or an
exact rational number.  Exact equality of `V` values models bit-for-bit
identity of floats (known cells are only ever copied verbatim by the code, so
no rounding enters the properties proved here).  An interpolator is an
arbitrary function from the selected weighted points and the query coordinate
to `Option V`: `none` models the interpolator raising an exception (caught by
the per-cell `try/except` in the source), `some V.nan` models it returning
NaN.  Python's two-argument `max` built-in is modelled by `pymax`, including
its asymmetric treatment of NaN (any `>` comparison with NaN is false).
-/

/-- A matrix cell value: the NaN "unknown" sentinel or an exact number. -/
inductive V where
  | nan : V
  | num : ℚ → V
deriving DecidableEq, Repr

/-- `np.isnan` on a cell value. -/
def V.isnan : V → Bool
  | V.nan => true
  | V.num _ => false

/-- Python `a > b` on cell values: any comparison involving NaN is `False`. -/
def pyGT : V → V → Bool
  | V.num a, V.num b => decide (b < a)
  | _, _ => false

/-- Python's built-in `max(a, b)`: starts with `a`, replaces it by `b` only
if `b > a`; hence `max(0.0, nan) = 0.0` while `max(nan, 0.0) = nan`. -/
def pymax (a b : V) : V := if pyGT b a then b else a

/-- `has_missing_values` from `_incompletedatahandler.py`: scan the rows and
report whether any cell is NaN. -/
def has_missing_values (bsps : List (List V)) : Bool :=
  bsps.any (fun row => row.any (fun val => val.isnan))

/-- The `valid_points` collection loop of `interpolate_missing_values`:
for each `(wa_idx, wa)` and `(ws_idx, ws)` in order, keep `(ws, wa, bsp)`
whenever `bsps[wa_idx][ws_idx]` is not NaN.  (The Python code indexes
`bsps[wa_idx][ws_idx]`; for a well-formed matrix — `len(bsps) == len(wa_res)`
and every row of length `len(ws_res)` — this is the same as zipping.) -/
def validPoints (ws_res wa_res : List ℚ) (bsps : List (List V)) :
    List (ℚ × ℚ × ℚ) :=
  ((wa_res.zip bsps).map (fun p =>
    ((ws_res.zip p.2).filterMap (fun q =>
      match q.2 with
      | V.nan => none
      | V.num b => some (q.1, p.1, b))))).flatten

/-- An interpolator: receives the weighted points selected by the
neighbourhood (each `(ws, wa, bsp)`, all with weight 1.0) and the grid point,
and returns the interpolated value, or `none` if it raises an exception. -/
def Interp : Type := List (ℚ × ℚ × ℚ) → ℚ × ℚ → Option V

/-- Modelled from the spec: `hrosailing.processing.neighbourhood.Ball` is not
under `src/`; per the spec (§4.1, §4.3.3b) an offset is contained in the ball
iff its Euclidean norm is at most the radius (default radius 2.0 in
`interpolate_missing_values`).  Over exact rationals,
`‖(x, y)‖ ≤ 2 ↔ x² + y² ≤ 4`. -/
def ballContains (offsetWs offsetWa : ℚ) : Bool :=
  decide (offsetWs ^ 2 + offsetWa ^ 2 ≤ 4)

/-- `0.0 if np.isnan(val) else val` applied to a single cell. -/
def zf : V → V
  | V.nan => V.num 0
  | v => v

/-- The `0.0 if np.isnan(val) else val` comprehension used by both the
sparse-data fallback of `interpolate_missing_values` and (per the spec, §6)
by `PolarDiagramTable` construction. -/
def zeroFill (bsps : List (List V)) : List (List V) :=
  bsps.map (fun row => row.map zf)

/-- The body of the per-cell fill loop of `interpolate_missing_values`:
a known cell is copied verbatim; for a NaN cell, select the valid points
whose offset from the grid point lies in the radius-2 ball, fill with 0.0
when none does, otherwise clamp the interpolated value with
`max(0.0, ·)`; an exception from the interpolator (modelled by `none`)
is caught and the cell filled with 0.0. -/
def fillCell (interp : Interp) (pts : List (ℚ × ℚ × ℚ)) (ws wa : ℚ)
    (val : V) : V :=
  match val with
  | V.num b => V.num b
  | V.nan =>
    let considered := pts.filter (fun p => ballContains (p.1 - ws) (p.2.1 - wa))
    if considered.isEmpty then V.num 0
    else
      match interp considered (ws, wa) with
      | none => V.num 0
      | some iv => pymax (V.num 0) iv

/-- The doubly nested fill loop of `interpolate_missing_values`: for each
`(wa_idx, wa)` and `(ws_idx, ws)` in order, apply the per-cell fill to
`bsps[wa_idx][ws_idx]`. -/
def fillMatrix (interp : Interp) (pts : List (ℚ × ℚ × ℚ))
    (ws_res wa_res : List ℚ) (bsps : List (List V)) : List (List V) :=
  (wa_res.zip bsps).map (fun p =>
    (ws_res.zip p.2).map (fun q => fillCell interp pts q.1 p.1 q.2))

/-- `interpolate_missing_values` from `_incompletedatahandler.py`.
Returns the filled matrix and the `interpolation_performed` flag. -/
def interpolate_missing_values (ws_res wa_res : List ℚ)
    (bsps : List (List V)) (interp : Interp) : List (List V) × Bool :=
  let valid_points := validPoints ws_res wa_res bsps
  if has_missing_values bsps = false then
    (bsps, false)
  else if valid_points.length < 3 then
    (zeroFill bsps, true)
  else
    (fillMatrix interp valid_points ws_res wa_res bsps, true)

namespace Reading

/-- `_has_missing_values` from `_reading.py` (textually identical duplicate
of `has_missing_values`). -/
def has_missing_values (bsps : List (List V)) : Bool :=
  bsps.any (fun row => row.any (fun val => val.isnan))

/-- The `valid_points` collection loop of `_interpolate_missing_values`
in `_reading.py` (textually identical duplicate). -/
def validPoints (ws_res wa_res : List ℚ) (bsps : List (List V)) :
    List (ℚ × ℚ × ℚ) :=
  ((wa_res.zip bsps).map (fun p =>
    ((ws_res.zip p.2).filterMap (fun q =>
      match q.2 with
      | V.nan => none
      | V.num b => some (q.1, p.1, b))))).flatten

/-- `_interpolate_missing_values` from `_reading.py` (textually identical
duplicate of `interpolate_missing_values`). -/
def interpolate_missing_values (ws_res wa_res : List ℚ)
    (bsps : List (List V)) (interp : Interp) : List (List V) × Bool :=
  let valid_points := Reading.validPoints ws_res wa_res bsps
  if Reading.has_missing_values bsps = false then
    (bsps, false)
  else if valid_points.length < 3 then
    (zeroFill bsps, true)
  else
    (fillMatrix interp valid_points ws_res wa_res bsps, true)

end Reading

/-- A polar-diagram table as produced by `_read_extern_format`: axes, speed
matrix, and the `interpolation_performed` flag stored on the instance. -/
structure PolarTable where
  ws_res : List ℚ
  wa_res : List ℚ
  matrix : List (List V)
  interpolation_performed : Bool
deriving DecidableEq, Repr

/-- Modelled from the spec: `PolarDiagramTable.__init__`
(`_polardiagramtable.py` is not under `src/`) resolves missing cells to a
dense matrix by the 0-fill fallback (spec §6: "missing cells must still be
resolved to a dense matrix by the same 0-fill fallback"). -/
def polarTableMatrix (bsps : List (List V)) : List (List V) :=
  zeroFill bsps

/-- The post-parse core of `_read_extern_format` from `_reading.py`: starting
from the parsed `(ws_res, wa_res, bsps)`, run `_interpolate_missing_values`
only when `interpolate_missing` is true, construct the `PolarDiagramTable`,
and store the `interpolation_performed` flag on it. -/
def read_extern_format (ws_res wa_res : List ℚ) (bsps : List (List V))
    (interpolate_missing : Bool) (interp : Interp) : PolarTable :=
  let r := if interpolate_missing then
      Reading.interpolate_missing_values ws_res wa_res bsps interp
    else (bsps, false)
  { ws_res := ws_res
    wa_res := wa_res
    matrix := polarTableMatrix r.1
    interpolation_performed := r.2 }

/-- Cell access `m[i][j]` as an `Option`: `some v` exactly when both indices
are in range. -/
def cell (m : List (List V)) (i j : ℕ) : Option V :=
  (m[i]?).bind (fun row => row[j]?)

/-- Well-formedness of a `(ws_res, wa_res, bsps)` triple, as required by the
data model (spec §3) and implicitly by the Python indexing
`bsps[wa_idx][ws_idx]`: the matrix has one row per wind angle and one column
per wind speed. -/
def Wf (ws_res wa_res : List ℚ) (bsps : List (List V)) : Prop :=
  bsps.length = wa_res.length ∧ ∀ row ∈ bsps, row.length = ws_res.length

instance (ws_res wa_res : List ℚ) (bsps : List (List V)) :
    Decidable (Wf ws_res wa_res bsps) := by
  unfold Wf; infer_instance

/-- The number of non-NaN ("known") cells of a matrix. -/
def countValid (bsps : List (List V)) : ℕ :=
  (bsps.map (fun row => row.countP (fun val => !val.isnan))).sum

/-- The `res` argument of `set_resolution` in `wind.py`: `None`, an iterable
of (finite) numbers, or a scalar. -/
inductive ResArg where
  | auto : ResArg
  | seq : List ℚ → ResArg
  | scalar : ℚ → ResArg

/-- `np.arange(start, stop, step)` over exact rationals, for `step > 0`:
the values `start + k * step` for `0 ≤ k < ⌈(stop - start) / step⌉`. -/
def arange (start stop step : ℚ) : List ℚ :=
  (List.range (⌈(stop - start) / step⌉).toNat).map
    (fun k => start + (k : ℚ) * step)

/-- `set_resolution` from `wind.py`.  The result of the sequence branch is a
pair `(resolution, warned)`: on duplicate entries the source calls
`warnings.warn` — which does not raise — and still returns `res` unchanged,
so the model records the warning as a Boolean instead of an error.
`Except.error` models a raised `WindException`: an empty sequence
("incorrect shape") or a non-positive scalar.  NaN and infinite entries
(rejected by `np.asarray_chkfinite`) are not representable over `ℚ`.
The `speed` flag models `speed_or_angle == "speed"`. -/
def set_resolution (res : ResArg) (speed : Bool) :
    Except String (List ℚ × Bool) :=
  match res with
  | ResArg.auto =>
      Except.ok ((if speed then arange 2 42 2 else arange 0 360 5), false)
  | ResArg.seq l =>
      if l.length = 0 then Except.error "res has incorrect shape"
      else if l.dedup.length ≠ l.length then Except.ok (l, true)
      else Except.ok (l, false)
  | ResArg.scalar q =>
      if q ≤ 0 then Except.error "res is nonpositive"
      else Except.ok ((if speed then arange q 40 q else arange q 360 q), false)

/-! ## Helper lemmas -/

lemma zip_getElem? {α β : Type _} (as : List α) (bs : List β) (i : ℕ) :
    (as.zip bs)[i]? = as[i]?.bind (fun a => bs[i]?.map (fun b => (a, b))) := by
  induction as generalizing bs i with
  | nil => simp
  | cons x xs ih =>
    cases bs with
    | nil => simp
    | cons y ys =>
      cases i with
      | zero => simp
      | succ n => simpa using ih ys n

lemma cell_eq_some {bsps : List (List V)} {i j : ℕ} {v : V} :
    cell bsps i j = some v ↔
      ∃ row, bsps[i]? = some row ∧ row[j]? = some v := by
  simp [cell, Option.bind_eq_some]

lemma cell_bounds {ws wa : List ℚ} {bsps : List (List V)} {i j : ℕ} {v : V}
    (hwf : Wf ws wa bsps) (hc : cell bsps i j = some v) :
    ∃ row w a, bsps[i]? = some row ∧ row[j]? = some v ∧
      ws[j]? = some w ∧ wa[i]? = some a := by
  obtain ⟨row, hb, hv⟩ := cell_eq_some.1 hc
  obtain ⟨hi, hbi⟩ := List.getElem?_eq_some.1 hb
  obtain ⟨hj, -⟩ := List.getElem?_eq_some.1 hv
  have hrow : row ∈ bsps := hbi ▸ List.getElem_mem hi
  have hjw : j < ws.length := by rw [← hwf.2 row hrow]; exact hj
  have hiw : i < wa.length := by rw [← hwf.1]; exact hi
  exact ⟨row, ws[j], wa[i], hb, hv,
    List.getElem?_eq_getElem hjw, List.getElem?_eq_getElem hiw⟩

lemma imv_dense (ws wa : List ℚ) (bsps : List (List V)) (interp : Interp)
    (h : has_missing_values bsps = false) :
    interpolate_missing_values ws wa bsps interp = (bsps, false) := by
  simp [interpolate_missing_values, h]

lemma imv_sparse (ws wa : List ℚ) (bsps : List (List V)) (interp : Interp)
    (h1 : has_missing_values bsps = true)
    (h2 : (validPoints ws wa bsps).length < 3) :
    interpolate_missing_values ws wa bsps interp = (zeroFill bsps, true) := by
  simp [interpolate_missing_values, h1, h2]

lemma imv_main (ws wa : List ℚ) (bsps : List (List V)) (interp : Interp)
    (h1 : has_missing_values bsps = true)
    (h2 : ¬ (validPoints ws wa bsps).length < 3) :
    interpolate_missing_values ws wa bsps interp =
      (fillMatrix interp (validPoints ws wa bsps) ws wa bsps, true) := by
  simp [interpolate_missing_values, h1, h2]

lemma cell_zeroFill (bsps : List (List V)) (i j : ℕ) :
    cell (zeroFill bsps) i j = (cell bsps i j).map zf := by
  unfold cell zeroFill
  rw [List.getElem?_map]
  cases bsps[i]? with
  | none => rfl
  | some row => simp [List.getElem?_map]

lemma cell_fillMatrix {interp : Interp} {pts : List (ℚ × ℚ × ℚ)}
    {ws wa : List ℚ} {bsps : List (List V)} {i j : ℕ}
    {row : List V} {v : V} {w a : ℚ}
    (hb : bsps[i]? = some row) (hv : row[j]? = some v)
    (hw : ws[j]? = some w) (ha : wa[i]? = some a) :
    cell (fillMatrix interp pts ws wa bsps) i j =
      some (fillCell interp pts w a v) := by
  simp [cell, fillMatrix, List.getElem?_map, zip_getElem?, hb, hv, hw, ha]

lemma pymax_zero_nonneg (v : V) :
    ∃ q, pymax (V.num 0) v = V.num q ∧ 0 ≤ q := by
  cases v with
  | nan => exact ⟨0, rfl, le_refl 0⟩
  | num q =>
    by_cases h : 0 < q
    · exact ⟨q, by simp [pymax, pyGT, h], le_of_lt h⟩
    · exact ⟨0, by simp [pymax, pyGT, h], le_refl 0⟩

lemma fillCell_num (interp : Interp) (pts : List (ℚ × ℚ × ℚ)) (w a b : ℚ) :
    fillCell interp pts w a (V.num b) = V.num b := rfl

lemma fillCell_nan_nonneg (interp : Interp) (pts : List (ℚ × ℚ × ℚ))
    (w a : ℚ) : ∃ q, fillCell interp pts w a V.nan = V.num q ∧ 0 ≤ q := by
  unfold fillCell
  by_cases he : (pts.filter
      (fun p => ballContains (p.1 - w) (p.2.1 - a))).isEmpty
  · exact ⟨0, by simp [he], le_refl 0⟩
  · cases hi : interp (pts.filter
        (fun p => ballContains (p.1 - w) (p.2.1 - a))) (w, a) with
    | none => exact ⟨0, by simp [he, hi], le_refl 0⟩
    | some iv =>
      obtain ⟨q, hq, hq0⟩ := pymax_zero_nonneg iv
      exact ⟨q, by simp [he, hi, hq], hq0⟩

lemma fillCell_not_nan (interp : Interp) (pts : List (ℚ × ℚ × ℚ))
    (w a : ℚ) (v : V) : (fillCell interp pts w a v).isnan = false := by
  cases v with
  | num b => rfl
  | nan =>
    obtain ⟨q, hq, -⟩ := fillCell_nan_nonneg interp pts w a
    rw [hq]; rfl

lemma fillCell_no_neighbor {interp : Interp} {pts : List (ℚ × ℚ × ℚ)}
    {w a : ℚ}
    (h : ∀ p ∈ pts, ballContains (p.1 - w) (p.2.1 - a) = false) :
    fillCell interp pts w a V.nan = V.num 0 := by
  have he : pts.filter (fun p => ballContains (p.1 - w) (p.2.1 - a)) = [] :=
    List.filter_eq_nil_iff.2 (by simpa using h)
  simp [fillCell, he]

lemma fillCell_interp_none {interp : Interp} {pts : List (ℚ × ℚ × ℚ)}
    {w a : ℚ}
    (h : interp (pts.filter (fun p => ballContains (p.1 - w) (p.2.1 - a)))
      (w, a) = none) :
    fillCell interp pts w a V.nan = V.num 0 := by
  unfold fillCell
  by_cases he : (pts.filter
      (fun p => ballContains (p.1 - w) (p.2.1 - a))).isEmpty <;> simp [he, h]

lemma fillCell_interp_nan {interp : Interp} {pts : List (ℚ × ℚ × ℚ)}
    {w a : ℚ}
    (h : interp (pts.filter (fun p => ballContains (p.1 - w) (p.2.1 - a)))
      (w, a) = some V.nan) :
    fillCell interp pts w a V.nan = V.num 0 := by
  unfold fillCell
  by_cases he : (pts.filter
      (fun p => ballContains (p.1 - w) (p.2.1 - a))).isEmpty <;>
    simp [he, h, pymax, pyGT]

lemma filterMap_zip_length (ws : List ℚ) (row : List V) (a : ℚ)
    (h : row.length = ws.length) :
    ((ws.zip row).filterMap (fun q =>
      match q.2 with
      | V.nan => none
      | V.num b => some (q.1, a, b))).length
      = row.countP (fun val => !val.isnan) := by
  induction ws generalizing row with
  | nil =>
    cases row with
    | nil => rfl
    | cons v vs => simp at h
  | cons w ws ih =>
    cases row with
    | nil => simp at h
    | cons v vs =>
      have h' : vs.length = ws.length := by simpa using h
      cases v with
      | nan => simpa [List.filterMap_cons, List.countP_cons, V.isnan]
          using ih vs h'
      | num b => simpa [List.filterMap_cons, List.countP_cons, V.isnan,
          Nat.add_comm] using ih vs h'

lemma validPoints_length (ws wa : List ℚ) (bsps : List (List V))
    (hwf : Wf ws wa bsps) :
    (validPoints ws wa bsps).length = countValid bsps := by
  obtain ⟨hlen, hrow⟩ := hwf
  induction bsps generalizing wa with
  | nil => simp [validPoints, countValid]
  | cons row rest ih =>
    cases wa with
    | nil => simp at hlen
    | cons a wa' =>
      have hlen' : rest.length = wa'.length := by simpa using hlen
      have hr : row.length = ws.length := hrow row (by simp)
      have hrest : ∀ r ∈ rest, r.length = ws.length :=
        fun r hrm => hrow r (List.mem_cons_of_mem row hrm)
      have := ih wa' hlen' hrest
      simp only [validPoints, countValid, List.zip_cons_cons, List.map_cons,
        List.flatten_cons, List.length_append, List.sum_cons] at this ⊢
      rw [filterMap_zip_length ws row a hr, this]

lemma zf_not_nan (v : V) : (zf v).isnan = false := by cases v <;> rfl

lemma has_missing_zeroFill (bsps : List (List V)) :
    has_missing_values (zeroFill bsps) = false := by
  rw [← Bool.not_eq_true, has_missing_values]
  rw [List.any_eq_true]
  rintro ⟨row, hrow, hany⟩
  obtain ⟨row0, -, rfl⟩ := List.mem_map.1 hrow
  rw [List.any_eq_true] at hany
  obtain ⟨v, hv, hnan⟩ := hany
  obtain ⟨v0, -, rfl⟩ := List.mem_map.1 hv
  rw [zf_not_nan] at hnan
  exact Bool.false_ne_true hnan

lemma has_missing_fillMatrix (interp : Interp) (pts : List (ℚ × ℚ × ℚ))
    (ws wa : List ℚ) (bsps : List (List V)) :
    has_missing_values (fillMatrix interp pts ws wa bsps) = false := by
  rw [← Bool.not_eq_true, has_missing_values, List.any_eq_true]
  rintro ⟨row, hrow, hany⟩
  obtain ⟨p, -, rfl⟩ := List.mem_map.1 hrow
  rw [List.any_eq_true] at hany
  obtain ⟨v, hv, hnan⟩ := hany
  obtain ⟨q, -, rfl⟩ := List.mem_map.1 hv
  rw [fillCell_not_nan] at hnan
  exact Bool.false_ne_true hnan

lemma imv_flag (ws wa : List ℚ) (bsps : List (List V)) (interp : Interp) :
    (interpolate_missing_values ws wa bsps interp).2
      = has_missing_values bsps := by
  by_cases hm : has_missing_values bsps = false
  · rw [imv_dense ws wa bsps interp hm, hm]
  · rw [Bool.not_eq_false] at hm
    by_cases hs : (validPoints ws wa bsps).length < 3
    · rw [imv_sparse ws wa bsps interp hm hs, hm]
    · rw [imv_main ws wa bsps interp hm hs, hm]

lemma imv_fst_dense (ws wa : List ℚ) (bsps : List (List V))
    (interp : Interp) :
    has_missing_values (interpolate_missing_values ws wa bsps interp).1
      = false := by
  by_cases hm : has_missing_values bsps = false
  · rw [imv_dense ws wa bsps interp hm]; exact hm
  · rw [Bool.not_eq_false] at hm
    by_cases hs : (validPoints ws wa bsps).length < 3
    · rw [imv_sparse ws wa bsps interp hm hs]
      exact has_missing_zeroFill bsps
    · rw [imv_main ws wa bsps interp hm hs]
      exact has_missing_fillMatrix interp (validPoints ws wa bsps) ws wa bsps

lemma no_nan_cell_of_dense {bsps : List (List V)} {i j : ℕ}
    (hm : has_missing_values bsps = false) : cell bsps i j ≠ some V.nan := by
  intro hnan
  obtain ⟨row, hb, hv⟩ := cell_eq_some.1 hnan
  obtain ⟨hi, hbi⟩ := List.getElem?_eq_some.1 hb
  obtain ⟨hj, hvj⟩ := List.getElem?_eq_some.1 hv
  have hrow : row ∈ bsps := hbi ▸ List.getElem_mem hi
  have hmem : V.nan ∈ row := hvj ▸ List.getElem_mem hj
  exact List.any_eq_false.1 hm row hrow
    (List.any_eq_true.2 ⟨V.nan, hmem, rfl⟩)

lemma getElem?_isSome {α : Type _} (l : List α) (i : ℕ) :
    l[i]?.isSome = decide (i < l.length) := by
  by_cases h : i < l.length
  · simp [List.getElem?_eq_getElem h, h]
  · simp [List.getElem?_eq_none (le_of_not_lt h), h]

lemma cell_fillMatrix_isSome (interp : Interp) (pts : List (ℚ × ℚ × ℚ))
    (ws wa : List ℚ) (bsps : List (List V)) (hwf : Wf ws wa bsps)
    (i j : ℕ) :
    (cell (fillMatrix interp pts ws wa bsps) i j).isSome
      = (cell bsps i j).isSome := by
  obtain ⟨hlen, hrow⟩ := hwf
  by_cases hi : i < bsps.length
  · have hia : i < wa.length := hlen ▸ hi
    have hb : bsps[i]? = some bsps[i] := List.getElem?_eq_getElem hi
    have ha : wa[i]? = some wa[i] := List.getElem?_eq_getElem hia
    have hr : bsps[i].length = ws.length := hrow _ (List.getElem_mem hi)
    by_cases hj : j < ws.length
    · have hwj : ws[j]? = some ws[j] := List.getElem?_eq_getElem hj
      have hbj : bsps[i][j]? = some bsps[i][j] :=
        List.getElem?_eq_getElem (by rw [hr]; exact hj)
      simp [cell, fillMatrix, List.getElem?_map, zip_getElem?, hb, ha,
        hwj, hbj]
    · have hwj : ws[j]? = none := List.getElem?_eq_none (le_of_not_lt hj)
      have hbj : bsps[i][j]? = none :=
        List.getElem?_eq_none (by rw [hr]; exact le_of_not_lt hj)
      simp [cell, fillMatrix, List.getElem?_map, zip_getElem?, hb, ha,
        hwj, hbj]
  · have hb : bsps[i]? = none := List.getElem?_eq_none (le_of_not_lt hi)
    have hz : (wa.zip bsps)[i]? = none := by
      apply List.getElem?_eq_none
      rw [List.length_zip]
      exact le_trans (min_le_right _ _) (le_of_not_lt hi)
    simp [cell, fillMatrix, List.getElem?_map, hb, hz]

/-! ## The claims -/

/-- Claim C1: known-value preservation — for every wind-speed axis, wind-angle
axis and well-formed boat-speed matrix, every cell whose value is not the NaN
sentinel comes back from `interpolate_missing_values` with exactly the input
value, whatever interpolator is supplied (exact `V`-equality models
bit-for-bit identity: known cells are only ever copied, never recomputed). -/
theorem C1_known_value_preservation (ws wa : List ℚ) (bsps : List (List V))
    (interp : Interp) (i j : ℕ) (b : ℚ) (hwf : Wf ws wa bsps)
    (hk : cell bsps i j = some (V.num b)) :
    cell (interpolate_missing_values ws wa bsps interp).1 i j
      = some (V.num b) := by
  by_cases hm : has_missing_values bsps = false
  · rw [imv_dense ws wa bsps interp hm]; exact hk
  · rw [Bool.not_eq_false] at hm
    by_cases hs : (validPoints ws wa bsps).length < 3
    · rw [imv_sparse ws wa bsps interp hm hs, cell_zeroFill, hk]; rfl
    · rw [imv_main ws wa bsps interp hm hs]
      obtain ⟨row, w, a, hb, hv, hw, ha⟩ := cell_bounds hwf hk
      rw [cell_fillMatrix hb hv hw ha, fillCell_num]

theorem C1_witness :
    cell (interpolate_missing_values [6, 8] [30, 45]
      [[V.num 3, V.nan], [V.num 4, V.num 5]] (fun _ _ => some (V.num 9))).1
      0 0 = some (V.num 3) :=
  C1_known_value_preservation [6, 8] [30, 45]
    [[V.num 3, V.nan], [V.num 4, V.num 5]] (fun _ _ => some (V.num 9))
    0 0 3 (by decide) (by decide)

/-- Claim C2: flag correctness — the boolean returned as the second component
of `interpolate_missing_values` is true iff at least one cell of the input
matrix is the NaN sentinel. -/
theorem C2_flag_correctness (ws wa : List ℚ) (bsps : List (List V))
    (interp : Interp) :
    (interpolate_missing_values ws wa bsps interp).2 = true ↔
      ∃ row ∈ bsps, ∃ val ∈ row, val.isnan = true := by
  rw [imv_flag]
  simp [has_missing_values, List.any_eq_true]

/-- Claim C3: idempotence / dense passthrough — on a matrix with no NaN cell
the filler returns exactly the input paired with `false`, and hence applying
it twice equals applying it once. -/
theorem C3_idempotence (ws wa : List ℚ) (bsps : List (List V))
    (interp : Interp) (h : has_missing_values bsps = false) :
    interpolate_missing_values ws wa bsps interp = (bsps, false) ∧
    interpolate_missing_values ws wa
        (interpolate_missing_values ws wa bsps interp).1 interp
      = interpolate_missing_values ws wa bsps interp := by
  have h1 := imv_dense ws wa bsps interp h
  refine ⟨h1, ?_⟩
  rw [h1]
  simpa using h1

theorem C3_witness :
    interpolate_missing_values [6, 8] [30, 45]
        [[V.num 1, V.num 2], [V.num 3, V.num 4]] (fun _ _ => some (V.num 9))
      = ([[V.num 1, V.num 2], [V.num 3, V.num 4]], false) :=
  (C3_idempotence [6, 8] [30, 45] [[V.num 1, V.num 2], [V.num 3, V.num 4]]
    (fun _ _ => some (V.num 9)) (by decide)).1

/-- Claim C4: sparsity fallback — if the (well-formed) matrix has at least
one NaN cell but fewer than 3 known cells in total, the filler returns the
input with every NaN cell replaced by exactly 0, the known cells unchanged
(cell by cell, `Option.map zf`: shape preserved, NaN ↦ 0, known ↦ itself),
and the flag true; the model is a total function, so no exception is
raised. -/
theorem C4_sparsity_fallback (ws wa : List ℚ) (bsps : List (List V))
    (interp : Interp) (hwf : Wf ws wa bsps)
    (hm : has_missing_values bsps = true) (hs : countValid bsps < 3) :
    interpolate_missing_values ws wa bsps interp = (zeroFill bsps, true) ∧
    ∀ i j, cell (interpolate_missing_values ws wa bsps interp).1 i j
      = (cell bsps i j).map zf := by
  have hs' : (validPoints ws wa bsps).length < 3 := by
    rw [validPoints_length ws wa bsps hwf]; exact hs
  have h1 := imv_sparse ws wa bsps interp hm hs'
  refine ⟨h1, fun i j => ?_⟩
  rw [h1]
  exact cell_zeroFill bsps i j

theorem C4_witness :
    interpolate_missing_values [6, 8] [30, 45]
        [[V.num 1, V.nan], [V.num 3, V.nan]] (fun _ _ => some (V.num 9))
      = ([[V.num 1, V.num 0], [V.num 3, V.num 0]], true) := by
  have h := (C4_sparsity_fallback [6, 8] [30, 45]
    [[V.num 1, V.nan], [V.num 3, V.nan]] (fun _ _ => some (V.num 9))
    (by decide) (by decide) (by decide)).1
  simpa [zeroFill, zf] using h

/-- Claim C5: density and non-negativity — the matrix returned by
`interpolate_missing_values` contains no NaN cell, and every cell that was
NaN in the (well-formed) input holds a value ≥ 0 in the output. -/
theorem C5_density_nonneg (ws wa : List ℚ) (bsps : List (List V))
    (interp : Interp) (hwf : Wf ws wa bsps) :
    has_missing_values (interpolate_missing_values ws wa bsps interp).1
        = false ∧
    ∀ i j, cell bsps i j = some V.nan →
      ∃ q, cell (interpolate_missing_values ws wa bsps interp).1 i j
        = some (V.num q) ∧ 0 ≤ q := by
  refine ⟨imv_fst_dense ws wa bsps interp, fun i j hnan => ?_⟩
  by_cases hm : has_missing_values bsps = false
  · exact absurd hnan (no_nan_cell_of_dense hm)
  · rw [Bool.not_eq_false] at hm
    by_cases hs : (validPoints ws wa bsps).length < 3
    · refine ⟨0, ?_, le_refl 0⟩
      rw [imv_sparse ws wa bsps interp hm hs, cell_zeroFill, hnan]; rfl
    · rw [imv_main ws wa bsps interp hm hs]
      obtain ⟨row, w, a, hb, hv, hw, ha⟩ := cell_bounds hwf hnan
      rw [cell_fillMatrix hb hv hw ha]
      obtain ⟨q, hq, hq0⟩ := fillCell_nan_nonneg interp
        (validPoints ws wa bsps) w a
      exact ⟨q, by rw [hq], hq0⟩

theorem C5_witness :
    has_missing_values (interpolate_missing_values [6, 8] [30, 45]
      [[V.num 3, V.nan], [V.num 4, V.num 5]]
      (fun _ _ => some (V.num 9))).1 = false :=
  (C5_density_nonneg [6, 8] [30, 45] [[V.num 3, V.nan], [V.num 4, V.num 5]]
    (fun _ _ => some (V.num 9)) (by decide)).1

/-- Claim C9: duplicate-implementation equivalence — the filler of
`_incompletedatahandler.py` and the private `_interpolate_missing_values` of
`_reading.py` return equal results on every input, and likewise the two
missing-value checks agree on every matrix (the two sources are textually
identical). -/
theorem C9_duplicate_equivalence :
    (∀ ws wa bsps interp,
      Reading.interpolate_missing_values ws wa bsps interp
        = interpolate_missing_values ws wa bsps interp) ∧
    ∀ bsps, Reading.has_missing_values bsps = has_missing_values bsps :=
  ⟨fun _ _ _ _ => rfl, fun _ => rfl⟩

/-- Claim C6: local error containment — when the (well-formed) matrix has a
missing cell and at least 3 known cells, a NaN cell whose neighbourhood is
empty (no known point whose offset lies in the radius-2 ball around the
cell's (wind speed, wind angle) coordinate), or whose interpolation raises
(modelled: the interpolator returns `none`), is filled with exactly 0.0,
and every other cell is still processed: the output has a value at exactly
the positions the input had.  The model is a total function, so no exception
escapes the fill loop. -/
theorem C6_local_error_containment (ws wa : List ℚ) (bsps : List (List V))
    (interp : Interp) (i j : ℕ) (w a : ℚ) (hwf : Wf ws wa bsps)
    (hm : has_missing_values bsps = true) (hd : 3 ≤ countValid bsps)
    (hw : ws[j]? = some w) (ha : wa[i]? = some a)
    (hnan : cell bsps i j = some V.nan)
    (hfail :
      (∀ p ∈ validPoints ws wa bsps,
        ballContains (p.1 - w) (p.2.1 - a) = false) ∨
      interp ((validPoints ws wa bsps).filter
        (fun p => ballContains (p.1 - w) (p.2.1 - a))) (w, a) = none) :
    cell (interpolate_missing_values ws wa bsps interp).1 i j
        = some (V.num 0) ∧
    ∀ i' j',
      (cell (interpolate_missing_values ws wa bsps interp).1 i' j').isSome
        = (cell bsps i' j').isSome := by
  have hs : ¬ (validPoints ws wa bsps).length < 3 := by
    rw [validPoints_length ws wa bsps hwf]; omega
  rw [imv_main ws wa bsps interp hm hs]
  obtain ⟨row, hb, hv⟩ := cell_eq_some.1 hnan
  refine ⟨?_, fun i' j' =>
    cell_fillMatrix_isSome interp (validPoints ws wa bsps) ws wa bsps hwf
      i' j'⟩
  rw [cell_fillMatrix hb hv hw ha]
  rcases hfail with hno | hnone
  · rw [fillCell_no_neighbor hno]
  · rw [fillCell_interp_none hnone]

theorem C6_witness :
    cell (interpolate_missing_values [6, 8] [30, 31]
      [[V.num 1, V.num 2], [V.num 3, V.nan]] (fun _ _ => none)).1 1 1
      = some (V.num 0) :=
  (C6_local_error_containment [6, 8] [30, 31]
    [[V.num 1, V.num 2], [V.num 3, V.nan]] (fun _ _ => none)
    1 1 8 31 (by decide) (by decide) (by decide) (by decide) (by decide)
    (by decide) (Or.inr rfl)).1

/-- Claim C7: flag-false densification — reading an external-format file with
`interpolate_missing = false` whose parsed matrix has missing cells yields a
table whose `interpolation_performed` flag is false and whose matrix is dense,
each missing cell resolved to 0 and each known cell kept (cell by cell,
`Option.map zf`).  The 0-fill at construction is `polarTableMatrix`, modelled
from the spec (`_polardiagramtable.py` is not under `src/`). -/
theorem C7_flag_false_densification (ws wa : List ℚ) (bsps : List (List V))
    (interp : Interp) (hm : has_missing_values bsps = true) :
    (read_extern_format ws wa bsps false interp).interpolation_performed
        = false ∧
    has_missing_values (read_extern_format ws wa bsps false interp).matrix
        = false ∧
    ∀ i j, cell (read_extern_format ws wa bsps false interp).matrix i j
      = (cell bsps i j).map zf :=
  ⟨rfl, has_missing_zeroFill bsps, fun i j => cell_zeroFill bsps i j⟩

theorem C7_witness :
    (read_extern_format [6, 8] [30, 45]
      [[V.num 1, V.nan], [V.num 3, V.num 4]] false
      (fun _ _ => some (V.num 9))).interpolation_performed = false :=
  (C7_flag_false_densification [6, 8] [30, 45]
    [[V.num 1, V.nan], [V.num 3, V.num 4]] (fun _ _ => some (V.num 9))
    (by decide)).1

/-- Claim C8, counterexample: the sequence `[1, 1]` contains a duplicate
value, yet `set_resolution` raises no error — it returns the axis unchanged,
only recording the duplicate-data warning, so a table construction proceeding
from it is not stopped.  This refutes the claim that duplicate axis values
raise an error immediately. -/
theorem C8_counterexample :
    ([1, 1] : List ℚ).dedup.length ≠ ([1, 1] : List ℚ).length ∧
    set_resolution (ResArg.seq [1, 1]) true = Except.ok ([1, 1], true) :=
  ⟨by decide, rfl⟩

/-- Claim C8 as amended: building an axis from a nonempty sequence containing
duplicate values does not raise an error — `set_resolution` issues a
duplicate-data warning (`warnings.warn`, modelled by the Boolean `true` in
the result) and returns the sequence unchanged, so construction continues. -/
theorem C8_amended_duplicates_warn (l : List ℚ) (b : Bool) (h0 : l ≠ [])
    (hdup : l.dedup.length ≠ l.length) :
    set_resolution (ResArg.seq l) b = Except.ok (l, true) := by
  have hl : ¬ l.length = 0 := by simpa [List.length_eq_zero] using h0
  simp [set_resolution, hl, hdup]

theorem C8_witness :
    set_resolution (ResArg.seq [2, 2]) false = Except.ok ([2, 2], true) :=
  C8_amended_duplicates_warn [2, 2] false (by decide) (by decide)

/-- Claim C10: NaN-absorbing clamp — the clamp is `max(0.0, value)` with 0.0
as the first argument, and Python's `max` keeps its first argument unless the
second compares strictly greater, so a NaN interpolation result yields 0.0;
consequently, in the per-cell fill of a (well-formed) matrix with at least 3
known cells, an interpolator returning NaN fills the cell with 0.0 and cannot
reintroduce the sentinel. -/
theorem C10_nan_absorbing_clamp :
    pymax (V.num 0) V.nan = V.num 0 ∧
    ∀ ws wa bsps interp i j w a, Wf ws wa bsps →
      has_missing_values bsps = true → 3 ≤ countValid bsps →
      ws[j]? = some w → wa[i]? = some a →
      cell bsps i j = some V.nan →
      interp ((validPoints ws wa bsps).filter
        (fun p => ballContains (p.1 - w) (p.2.1 - a))) (w, a)
        = some V.nan →
      cell (interpolate_missing_values ws wa bsps interp).1 i j
        = some (V.num 0) := by
  refine ⟨rfl, fun ws wa bsps interp i j w a hwf hm hd hw ha hnan hinan => ?_⟩
  have hs : ¬ (validPoints ws wa bsps).length < 3 := by
    rw [validPoints_length ws wa bsps hwf]; omega
  rw [imv_main ws wa bsps interp hm hs]
  obtain ⟨row, hb, hv⟩ := cell_eq_some.1 hnan
  rw [cell_fillMatrix hb hv hw ha, fillCell_interp_nan hinan]

theorem C10_witness :
    cell (interpolate_missing_values [6, 8] [30, 31]
      [[V.num 1, V.num 2], [V.num 3, V.nan]] (fun _ _ => some V.nan)).1 1 1
      = some (V.num 0) :=
  C10_nan_absorbing_clamp.2 [6, 8] [30, 31]
    [[V.num 1, V.num 2], [V.num 3, V.nan]] (fun _ _ => some V.nan)
    1 1 8 31 (by decide) (by decide) (by decide) (by decide) (by decide)
    (by decide) rfl
